import Mathlib

/-!
Shallow embedding of the Load-Balancer repository's scheduling-policy engine
(`src/pkg/load_balancer/load_balancer.go`, the canonical copy imported by the
live entry point `src/cmd/load_balancer/main.go`), together with theorems
checking the specification's claims about it.

Modelling conventions:
* Go `map[string]V` becomes an association list with unique keys
  (`mfind?` is `v, ok := m[k]`; reads that use Go's zero-value-on-missing-key
  semantics are `(mfind? m k).getD z`; `mset` is `m[k] = v`).
* Go `int` is modelled as `Int` (unbounded; no operation in this code can
  realistically approach 2^63), and Go's `%` on `int` is `Int.tmod`
  (truncated remainder, which is exactly Go's `%`).
* `float64` running means become exact rationals `ℚ`; `time.Time` /
  `time.Since(..).Seconds()` become explicit `now : ℚ` arguments threaded
  through the operations (seconds).
* The buffered channel `chan time.Time` of capacity 10000 becomes a `List ℚ`
  used as a FIFO (head = oldest element).
-/

/-- Backend addresses are opaque `host:port` strings. -/
abbrev Backend := String

/-- Go map lookup `v, ok := m[k]` on the association-list model. -/
def mfind? {α : Type} : List (Backend × α) → Backend → Option α
  | [], _ => none
  | (k, v) :: t, s => if k = s then some v else mfind? t s

/-- Go map write `m[k] = v`: replace the existing entry, or append a new one. -/
def mset {α : Type} : List (Backend × α) → Backend → α → List (Backend × α)
  | [], k, v => [(k, v)]
  | (k', v') :: t, k, v => if k' = k then (k, v) :: t else (k', v') :: mset t k v

theorem mfind?_mset_self {α : Type} (m : List (Backend × α)) (k : Backend) (v : α) :
    mfind? (mset m k v) k = some v := by
  induction m with
  | nil => simp [mset, mfind?]
  | cons h t ih =>
    obtain ⟨k', v'⟩ := h
    by_cases hk : k' = k
    · simp [mset, hk, mfind?]
    · simp [mset, hk, mfind?, ih]

theorem mfind?_mset_ne {α : Type} (m : List (Backend × α)) (k b : Backend) (v : α)
    (hne : b ≠ k) : mfind? (mset m k v) b = mfind? m b := by
  have hkb : ¬ (k = b) := fun h => hne h.symm
  induction m with
  | nil => simp [mset, mfind?, hkb]
  | cons h t ih =>
    obtain ⟨k', v'⟩ := h
    by_cases hk : k' = k
    · subst hk
      simp [mset, mfind?, hkb]
    · by_cases hb : k' = b <;> simp [mset, hk, mfind?, hb, hne, ih]

/-- Writing back the value already stored under `k` leaves the map unchanged. -/
theorem mset_eq_of_mfind? {α : Type} (m : List (Backend × α)) (k : Backend) (v : α)
    (h : mfind? m k = some v) : mset m k v = m := by
  induction m with
  | nil => simp [mfind?] at h
  | cons hd t ih =>
    obtain ⟨k', v'⟩ := hd
    by_cases hk : k' = k
    · subst hk
      simp [mfind?] at h
      simp [mset, h]
    · simp [mfind?, hk] at h
      simp [mset, hk, ih h]

/-- Overwriting the same key twice keeps only the second write. -/
theorem mset_mset_self {α : Type} (m : List (Backend × α)) (k : Backend) (v w : α) :
    mset (mset m k v) k w = mset m k w := by
  induction m with
  | nil => simp [mset]
  | cons hd t ih =>
    obtain ⟨k', v'⟩ := hd
    by_cases hk : k' = k <;> simp [mset, hk, ih]

/-! ### N2One: always the first server -/

structure N2One where
  servers : List Backend
deriving DecidableEq

def NewN2One (servers : List Backend) : N2One := ⟨servers⟩

/-- `func (p *N2One) SelectServer() string { return p.servers[0] }`
(the index panics on an empty pool; `headD ""` stands in for that
unreachable-by-contract case). -/
def N2One.SelectServer (p : N2One) : Backend := p.servers.headD ""

/-- `func (p *N2One) Update(server string) {}` -/
def N2One.Update (p : N2One) (_server : Backend) : N2One := p

/-! ### RoundRobin -/

structure RoundRobin where
  servers : List Backend
  idx : Int
deriving DecidableEq

def NewRoundRobin (servers : List Backend) : RoundRobin := ⟨servers, 0⟩

/-- `s := p.servers[p.idx]; p.idx = (p.idx + 1) % len(p.servers); return s`.
Go's `%` on `int` is truncated remainder (`Int.tmod`). -/
def RoundRobin.SelectServer (p : RoundRobin) : Backend × RoundRobin :=
  (p.servers.getD p.idx.toNat "",
   { p with idx := (p.idx + 1).tmod (p.servers.length : Int) })

/-- `func (p *RoundRobin) Update(server string) {}` -/
def RoundRobin.Update (p : RoundRobin) (_server : Backend) : RoundRobin := p

/-! ### LeastConnections -/

structure LeastConnections where
  servers : List Backend
  connections : List (Backend × Int)
deriving DecidableEq

/-- `conn := make(map[string]int); for _, s := range servers { conn[s] = 0 }` -/
def NewLeastConnections (servers : List Backend) : LeastConnections :=
  ⟨servers, servers.foldl (fun m s => mset m s 0) []⟩

/-- The Go map read `p.connections[s]` (zero value `0` when the key is absent). -/
def LeastConnections.count (p : LeastConnections) (s : Backend) : Int :=
  (mfind? p.connections s).getD 0

/-- The scan `for _, s := range p.servers { if p.connections[s] < min { min, selected = p.connections[s], s } }`. -/
def lcScan (conn : List (Backend × Int)) : List Backend → Int × Backend → Int × Backend
  | [], acc => acc
  | s :: rest, (m, sel) =>
    if (mfind? conn s).getD 0 < m then lcScan conn rest ((mfind? conn s).getD 0, s)
    else lcScan conn rest (m, sel)

/-- `min := int(^uint(0) >> 1)` — the maximum 64-bit `int` — then scan for the
first backend of strictly smallest count, increment it, return it. -/
def LeastConnections.SelectServer (p : LeastConnections) : Backend × LeastConnections :=
  let r := lcScan p.connections p.servers (2 ^ 63 - 1, "")
  (r.2, { p with connections := mset p.connections r.2 ((mfind? p.connections r.2).getD 0 + 1) })

/-- `if _, ok := p.connections[server]; ok && p.connections[server] > 0 { p.connections[server]-- }` -/
def LeastConnections.Update (p : LeastConnections) (server : Backend) : LeastConnections :=
  match mfind? p.connections server with
  | some c => if c > 0 then { p with connections := mset p.connections server (c - 1) } else p
  | none => p

/-! ### LeastResponseTime (canonical copy, with the rotating tie-break cursor) -/

structure LeastResponseTime where
  servers : List Backend
  avgTime : List (Backend × ℚ)
  startTimes : List (Backend × List ℚ)
  pastTimes : List (Backend × List ℚ)
  current : Int
deriving DecidableEq

/-- `avg[s] = 0.0; starts[s] = make(chan time.Time, 10000); past[s] = []float64{}`
for every pool member, `current = -1`. -/
def NewLeastResponseTime (servers : List Backend) : LeastResponseTime :=
  ⟨servers,
   servers.foldl (fun m s => mset m s 0) [],
   servers.foldl (fun m s => mset m s []) [],
   servers.foldl (fun m s => mset m s []) [],
   -1⟩

/-- The Go map read `p.avgTime[s]` (zero value `0.0` when the key is absent). -/
def LeastResponseTime.avgOf (p : LeastResponseTime) (s : Backend) : ℚ :=
  (mfind? p.avgTime s).getD 0

/-- The scan `for _, s := range p.servers { if p.avgTime[s] < min { min, selected = p.avgTime[s], s } }`. -/
def lrtScan (avg : Backend → ℚ) : List Backend → ℚ × Backend → ℚ × Backend
  | [], acc => acc
  | s :: rest, (m, sel) =>
    if avg s < m then lrtScan avg rest (avg s, s) else lrtScan avg rest (m, sel)

/-- The tie-break loop
`for range len(p.servers) { p.current = (p.current + 1) % len(p.servers);
  if p.avgTime[p.servers[p.current]] == p.avgTime[selected] { break } }`,
with the iteration count as structural fuel. -/
def lrtFindCursor (good : Int → Bool) (n : Int) : Nat → Int → Int
  | 0, cur => cur
  | fuel + 1, cur =>
    if good ((cur + 1).tmod n) then (cur + 1).tmod n
    else lrtFindCursor good n fuel ((cur + 1).tmod n)

/-- The non-blocking channel send with drop-oldest fallback:
`select { case ch <- now: default: select { case <-ch: default: }; ch <- now }`.
At capacity (10000 queued) the oldest entry is dropped and the send succeeds. -/
def lrtPush (now : ℚ) (q : List ℚ) : List ℚ :=
  if q.length = 10000 then q.drop 1 ++ [now] else q ++ [now]

/-- `(*LeastResponseTime).SelectServer`, with the current wall-clock time made
an explicit argument. The Go code indexes `p.servers[0]`, which panics on an
empty pool; `headD ""` stands in for that unreachable-by-contract case, and the
Go map read of a missing `startTimes` key (a nil channel, also unreachable from
the constructor) is modelled by `getD []`. -/
def LeastResponseTime.SelectServer (now : ℚ) (p : LeastResponseTime) :
    Backend × LeastResponseTime :=
  let sel0 := p.servers.headD ""
  let r := lrtScan p.avgOf p.servers (p.avgOf sel0, sel0)
  let n : Int := (p.servers.length : Int)
  let cur2 := lrtFindCursor (fun c => decide (p.avgOf (p.servers.getD c.toNat "") = p.avgOf r.2))
    n p.servers.length p.current
  let key := p.servers.getD cur2.toNat ""
  let q := (mfind? p.startTimes key).getD []
  (key, { p with current := cur2, startTimes := mset p.startTimes key (lrtPush now q) })

/-- `(*LeastResponseTime).Update`: pop the oldest start time of `server`
(no-op when the channel map has no entry or the queue is empty), append the
elapsed time to `pastTimes[server]`, and recompute `avgTime[server]` as the
arithmetic mean of the whole history. -/
def LeastResponseTime.Update (now : ℚ) (p : LeastResponseTime) (server : Backend) :
    LeastResponseTime :=
  match mfind? p.startTimes server with
  | none => p
  | some [] => p
  | some (start :: rest) =>
    let elapsed := now - start
    let past2 := ((mfind? p.pastTimes server).getD []) ++ [elapsed]
    { p with
      startTimes := mset p.startTimes server rest,
      pastTimes := mset p.pastTimes server past2,
      avgTime := mset p.avgTime server (past2.sum / (past2.length : ℚ)) }

/-! ### Startup configuration checking (`src/cmd/load_balancer/main.go`) -/

/-- The whitespace class of Go's `strings.Fields` (`unicode.IsSpace`),
restricted to the Latin-1 range relevant to command-line flag strings. -/
def isGoSpace (c : Char) : Bool :=
  c = ' ' || c = '\t' || c = '\n' || c = '\x0b' || c = '\x0c' || c = '\r' ||
  c = '\u0085' || c = '\u00A0'

/-- `strings.Fields`: split around runs of whitespace, keeping only
non-empty tokens. -/
def goFields (s : String) : List String :=
  (s.split (fun c => isGoSpace c)).filter (fun t => t ≠ "")

inductive PolicyKind where
  | N2One
  | RoundRobin
  | LeastConnections
  | LeastResponseTime
deriving DecidableEq

inductive StartupError where
  | noBackends
  | unknownPolicy (name : String)
deriving DecidableEq

/-- The startup configuration checks of `main()` up to the point where the
listener is bound and the accept loop starts: `-s` must be a non-empty string
(checked on the raw flag string, *before* splitting into fields) and `-a` must
name a known policy. `.ok` carries the policy kind and parsed backend list the
accept loop would run with. -/
def mainStartup (policyName serversFlag : String) : Except StartupError (PolicyKind × List Backend) :=
  if serversFlag.length = 0 then .error .noBackends
  else
    let servers := goFields serversFlag
    match policyName with
    | "N2One" => .ok (.N2One, servers)
    | "RoundRobin" => .ok (.RoundRobin, servers)
    | "LeastConnections" => .ok (.LeastConnections, servers)
    | "LeastResponseTime" => .ok (.LeastResponseTime, servers)
    | _ => .error (.unknownPolicy policyName)

/-! ### The test scenarios of `load_balancer_test.go` -/

/-- The 4-backend pool of the policy tests (`b0..b3`). -/
def testPool : List Backend :=
  ["localhost:5000", "localhost:5001", "localhost:5002", "localhost:5003"]

/-- The `releaseSocket` fixture: its `i`-th call yields `b0, b3, b2`, cycling. -/
def releaseSocket (i : Nat) : Backend :=
  (["localhost:5000", "localhost:5003", "localhost:5002"]).getD (i % 3) ""

/-- One iteration of the `TestLeastConnectionsUpdate` loop: one selection,
followed (from the 5th iteration on, `i > 3`) by one `Update` with the next
`releaseSocket` value. -/
def lcScenarioStep (acc : List Backend × LeastConnections) (i : Nat) :
    List Backend × LeastConnections :=
  let r := acc.2.SelectServer
  let p2 := if i > 3 then r.2.Update (releaseSocket (i - 4)) else r.2
  (acc.1 ++ [r.1], p2)

/-- The 8 selections made by `TestLeastConnectionsUpdate`. -/
def lcScenario : List Backend :=
  ((List.range 8).foldl lcScenarioStep ([], NewLeastConnections testPool)).1

/-- One iteration of the `TestLeastResponseTimeUpdate` loop: iteration `i`
happens at time `i / 10` seconds (the iterations are separated by the test's
100 ms sleep), makes one selection and, for `i > 3`, one `Update` with the
next `releaseSocket` value. -/
def lrtScenarioStep (acc : List Backend × LeastResponseTime) (i : Nat) :
    List Backend × LeastResponseTime :=
  let now : ℚ := (i : ℚ) / 10
  let r := LeastResponseTime.SelectServer now acc.2
  let p2 := if i > 3 then LeastResponseTime.Update now r.2 (releaseSocket (i - 4)) else r.2
  (acc.1 ++ [r.1], p2)

/-- The 8 selections made by `TestLeastResponseTimeUpdate`. -/
def lrtScenario : List Backend :=
  ((List.range 8).foldl lrtScenarioStep ([], NewLeastResponseTime testPool)).1

/-- C6: for the LeastConnections policy freshly constructed over the 4 backends
`b0..b3`, where iteration `i` performs one `SelectServer()` call and, for the
5th through 8th iterations, one `Update` call afterwards with arguments
`b0, b3, b2, b0` in that order, the 8 selections are exactly
`[b0, b1, b2, b3, b0, b0, b3, b2]`. -/
theorem c6_leastConnections_scenario :
    lcScenario =
      ["localhost:5000", "localhost:5001", "localhost:5002", "localhost:5003",
       "localhost:5000", "localhost:5000", "localhost:5003", "localhost:5002"] := by
  decide

/-- C3: for the LeastResponseTime policy freshly constructed over the 4
backends `b0..b3`, with successive iterations separated by 100 ms where
iteration `i` performs one `SelectServer()` call and, for the 5th through 8th
iterations, one `Update` call afterwards with arguments `b0, b3, b2, b0` in
that order, the 8 selections are exactly `[b0, b1, b2, b3, b0, b1, b2, b1]`. -/
theorem c3_leastResponseTime_scenario :
    lrtScenario =
      ["localhost:5000", "localhost:5001", "localhost:5002", "localhost:5003",
       "localhost:5000", "localhost:5001", "localhost:5002", "localhost:5001"] := by
  with_unfolding_all decide

/-! ### RoundRobin determinism (C5) -/

/-- `n` consecutive `SelectServer()` calls: the list of returned backends and
the final policy state. -/
def rrSelects : RoundRobin → Nat → List Backend × RoundRobin
  | p, 0 => ([], p)
  | p, n + 1 =>
    let r := p.SelectServer
    let rest := rrSelects r.2 n
    (r.1 :: rest.1, rest.2)

theorem rrSelects_add (p : RoundRobin) (a b : Nat) :
    rrSelects p (a + b) =
      ((rrSelects p a).1 ++ (rrSelects (rrSelects p a).2 b).1,
       (rrSelects (rrSelects p a).2 b).2) := by
  induction a generalizing p with
  | zero => simp [rrSelects]
  | succ m ih =>
    have : m + 1 + b = (m + b) + 1 := by omega
    rw [this]
    simp only [rrSelects]
    rw [ih]
    simp

theorem rrSelects_emit (servers : List Backend) (n i : Nat)
    (h : i + n = servers.length) :
    rrSelects ⟨servers, (i : Int)⟩ n =
      (servers.drop i, ⟨servers, if n = 0 then (i : Int) else 0⟩) := by
  induction n generalizing i with
  | zero =>
    have hi : i = servers.length := by omega
    simp [rrSelects, hi, List.drop_length]
  | succ m ih =>
    have hilt : i < servers.length := by omega
    have hsel : servers.getD ((i : Int)).toNat "" = servers[i] := by
      rw [Int.toNat_natCast]
      exact List.getD_eq_getElem servers "" hilt
    have hdrop : servers.drop i = servers[i] :: servers.drop (i + 1) :=
      List.drop_eq_getElem_cons hilt
    rcases Nat.eq_or_lt_of_le (Nat.succ_le_of_lt hilt) with hlast | hmore
    · -- i + 1 = length: this is the last step, the cursor wraps to 0
      have hm : m = 0 := by omega
      subst hm
      have hmod : ((i : Int) + 1).tmod (servers.length : Int) = 0 := by
        rw [show ((i : Int) + 1) = (servers.length : Int) by omega]
        exact Int.tmod_self
      have hnil : servers.drop (i + 1) = [] := by
        have hlen : i + 1 = servers.length := by omega
        rw [hlen]
        exact List.drop_length servers
      simp only [rrSelects, RoundRobin.SelectServer, hsel, hmod, hdrop, hnil]
      simp
    · -- i + 1 < length: the cursor advances to i + 1
      have hmpos : m ≠ 0 := by omega
      have hmod : ((i : Int) + 1).tmod (servers.length : Int) = ((i + 1 : Nat) : Int) := by
        rw [Int.tmod_eq_emod (by omega) (by omega)]
        rw [Int.emod_eq_of_lt (by omega) (by exact_mod_cast hmore)]
        omega
      have ih1 := ih (i + 1) (by omega)
      simp only [rrSelects, RoundRobin.SelectServer, hsel, hmod]
      rw [ih1]
      simp only [hmpos, if_false, Nat.succ_ne_zero, hdrop]

/-- C5: for every RoundRobin policy freshly constructed over a non-empty pool
of `N` backends, the first `N` `SelectServer()` calls return the pool in order
(each backend exactly once when the pool has no duplicates), the next `N`
calls return the identical sequence again, and `Update` is the identity on the
policy state, so interleaved `Update` calls never affect the sequence. -/
theorem c5_roundRobin_determinism (servers : List Backend)
    (hne : servers ≠ []) :
    (rrSelects (NewRoundRobin servers) (servers.length + servers.length)).1 =
        servers ++ servers ∧
      (∀ (q : RoundRobin) (s : Backend), q.Update s = q) ∧
      (servers.Nodup → ∀ b ∈ servers,
        (rrSelects (NewRoundRobin servers) servers.length).1.count b = 1) := by
  have hfresh : NewRoundRobin servers = ⟨servers, ((0 : Nat) : Int)⟩ := by
    simp [NewRoundRobin]
  have hN := rrSelects_emit servers servers.length 0 (by omega)
  have hNne : servers.length ≠ 0 := by
    simpa [List.length_eq_zero] using hne
  have hone : rrSelects (NewRoundRobin servers) servers.length =
      (servers, ⟨servers, 0⟩) := by
    rw [hfresh, hN]
    simp [hNne]
  refine ⟨?_, fun q s => rfl, ?_⟩
  · rw [rrSelects_add, hone]
    have h2 := rrSelects_emit servers servers.length 0 (by omega)
    simp only [Nat.cast_zero] at h2
    rw [h2]
    simp [hNne]
  · intro hnodup b hb
    rw [hone]
    simp [List.count_eq_one_of_mem hnodup hb]

/-- Witness for C5 at the concrete two-backend pool `["a", "b"]`. -/
theorem c5_roundRobin_determinism_witness :
    (["a", "b"] : List Backend) ≠ [] ∧
      (rrSelects (NewRoundRobin ["a", "b"]) 4).1 = ["a", "b", "a", "b"] := by
  refine ⟨by decide, ?_⟩
  have h := (c5_roundRobin_determinism ["a", "b"] (by decide)).1
  simpa using h

/-! ### LeastConnections counter invariant (C4) -/

/-- One policy-API call on a `LeastConnections` instance. -/
inductive LCOp where
  | select
  | update (s : Backend)

/-- Whether an `Update(s)` call actually decrements: the map has an entry for
`s` and its count is strictly positive (the guard of `(*LeastConnections).Update`). -/
def lcEffective (p : LeastConnections) (s : Backend) : Bool :=
  match mfind? p.connections s with
  | some c => decide (0 < c)
  | none => false

/-- Instrumented step: the policy state together with ghost per-backend
selection and effective-update counters. -/
def lcStep (st : LeastConnections × (Backend → Nat) × (Backend → Nat)) (op : LCOp) :
    LeastConnections × (Backend → Nat) × (Backend → Nat) :=
  match op with
  | .select =>
    let r := st.1.SelectServer
    (r.2, fun x => if x = r.1 then st.2.1 x + 1 else st.2.1 x, st.2.2)
  | .update s =>
    (st.1.Update s, st.2.1,
     if lcEffective st.1 s then (fun x => if x = s then st.2.2 x + 1 else st.2.2 x)
     else st.2.2)

/-- A sequence of policy-API calls on a freshly constructed instance, with the
ghost counters. -/
def lcRun (servers : List Backend) (ops : List LCOp) :
    LeastConnections × (Backend → Nat) × (Backend → Nat) :=
  ops.foldl lcStep (NewLeastConnections servers, fun _ => 0, fun _ => 0)

/-- All counts of a freshly constructed connection map read as `0`. -/
theorem lcInit_count (servers : List Backend) (m : List (Backend × Int))
    (hm : ∀ b, (mfind? m b).getD 0 = 0) (b : Backend) :
    (mfind? (servers.foldl (fun m s => mset m s 0) m) b).getD 0 = 0 := by
  induction servers generalizing m with
  | nil => exact hm b
  | cons s rest ih =>
    refine ih _ (fun b' => ?_)
    by_cases h : b' = s
    · subst h
      rw [mfind?_mset_self]
      rfl
    · rw [mfind?_mset_ne _ _ _ _ h]
      exact hm b'

/-- The per-state invariant of C4's induction: each count equals the ghost
selection count minus the ghost effective-update count, and is nonnegative. -/
def lcInv (st : LeastConnections × (Backend → Nat) × (Backend → Nat)) : Prop :=
  ∀ b, st.1.count b = (st.2.1 b : Int) - (st.2.2 b : Int) ∧ 0 ≤ st.1.count b


/-- `SelectServer` increments the count of the backend it returns. -/
theorem lcSelect_count_self (p : LeastConnections) :
    (p.SelectServer).2.count (p.SelectServer).1 = p.count (p.SelectServer).1 + 1 := by
  dsimp only [LeastConnections.SelectServer, LeastConnections.count]
  rw [mfind?_mset_self]
  rfl

/-- `SelectServer` leaves every other backend's count unchanged. -/
theorem lcSelect_count_ne (p : LeastConnections) (b : Backend)
    (hb : b ≠ (p.SelectServer).1) : (p.SelectServer).2.count b = p.count b := by
  have hb' : b ≠ (lcScan p.connections p.servers (2 ^ 63 - 1, "")).2 := hb
  dsimp only [LeastConnections.SelectServer, LeastConnections.count]
  rw [mfind?_mset_ne _ _ _ _ hb']

/-- `Update(s)` decrements `s`'s count by 1 exactly when it was positive. -/
theorem lcUpdate_count_self (p : LeastConnections) (s : Backend) :
    (p.Update s).count s = if 0 < p.count s then p.count s - 1 else p.count s := by
  rcases hfind : mfind? p.connections s with _ | c
  · simp [LeastConnections.Update, LeastConnections.count, hfind]
  · by_cases hc : 0 < c
    · simp [LeastConnections.Update, LeastConnections.count, hfind, hc,
        mfind?_mset_self]
    · simp [LeastConnections.Update, LeastConnections.count, hfind, hc]

/-- `Update(s)` leaves every other backend's count unchanged. -/
theorem lcUpdate_count_ne (p : LeastConnections) (s b : Backend) (hb : b ≠ s) :
    (p.Update s).count b = p.count b := by
  rcases hfind : mfind? p.connections s with _ | c
  · simp [LeastConnections.Update, hfind]
  · by_cases hc : 0 < c
    · simp only [LeastConnections.Update, hfind, hc, if_true, LeastConnections.count]
      rw [mfind?_mset_ne _ _ _ _ hb]
    · simp [LeastConnections.Update, hfind, hc]

/-- An `Update(s)` call is effective exactly when `s`'s count reads positive. -/
theorem lcEffective_iff (p : LeastConnections) (s : Backend) :
    lcEffective p s = decide (0 < p.count s) := by
  rcases hfind : mfind? p.connections s with _ | c
  · simp [lcEffective, LeastConnections.count, hfind]
  · simp [lcEffective, LeastConnections.count, hfind]

theorem lcStep_inv (st : LeastConnections × (Backend → Nat) × (Backend → Nat))
    (op : LCOp) (h : lcInv st) : lcInv (lcStep st op) := by
  cases op with
  | select =>
    intro b
    have hI := h b
    dsimp only [lcStep]
    by_cases hb : b = (st.1.SelectServer).1
    · have hc := lcSelect_count_self st.1
      rw [← hb] at hc
      rw [hc, if_pos hb]
      refine ⟨?_, ?_⟩ <;> push_cast <;> omega
    · rw [lcSelect_count_ne st.1 b hb, if_neg hb]
      exact ⟨by omega, hI.2⟩
  | update s =>
    intro b
    have hI := h b
    dsimp only [lcStep]
    by_cases hb : b = s
    · subst hb
      rw [lcUpdate_count_self st.1 b]
      by_cases hc : 0 < st.1.count b
      · have heff : lcEffective st.1 b = true := by
          rw [lcEffective_iff]
          exact decide_eq_true hc
        rw [if_pos hc, if_pos heff, if_pos rfl]
        refine ⟨?_, ?_⟩ <;> push_cast <;> omega
      · have heff : lcEffective st.1 b = false := by
          rw [lcEffective_iff]
          exact decide_eq_false hc
        rw [if_neg hc, if_neg (by rw [heff]; exact Bool.false_ne_true)]
        exact ⟨hI.1, hI.2⟩
    · rw [lcUpdate_count_ne st.1 s b hb]
      by_cases heff : lcEffective st.1 s = true
      · rw [if_pos heff, if_neg hb]
        exact ⟨hI.1, hI.2⟩
      · rw [if_neg heff]
        exact ⟨hI.1, hI.2⟩

theorem lcFold_inv (ops : List LCOp)
    (st : LeastConnections × (Backend → Nat) × (Backend → Nat))
    (h : lcInv st) : lcInv (ops.foldl lcStep st) := by
  induction ops generalizing st with
  | nil => exact h
  | cons op rest ih => exact ih _ (lcStep_inv _ op h)

theorem lcRun_inv (servers : List Backend) (ops : List LCOp) :
    lcInv (lcRun servers ops) := by
  refine lcFold_inv ops _ (fun b => ?_)
  have h0 : (NewLeastConnections servers).count b = 0 := by
    simp only [NewLeastConnections, LeastConnections.count]
    exact lcInit_count servers [] (fun _ => rfl) b
  simp [h0]

/-- C4: for every LeastConnections policy and every sequence of `SelectServer`
and `Update` calls, each backend's active count equals the number of times it
was selected minus the number of `Update` calls naming it that found its count
strictly positive, and this count is never negative; moreover `SelectServer`
increments the count of the backend it returns, and `Update(b)` decrements
`b`'s count by 1 exactly when the count was greater than 0. -/
theorem c4_leastConnections_counts :
    (∀ (servers : List Backend) (ops : List LCOp) (b : Backend),
        (lcRun servers ops).1.count b =
            ((lcRun servers ops).2.1 b : Int) - ((lcRun servers ops).2.2 b : Int) ∧
          0 ≤ (lcRun servers ops).1.count b) ∧
      (∀ q : LeastConnections,
        (q.SelectServer).2.count (q.SelectServer).1 = q.count (q.SelectServer).1 + 1) ∧
      (∀ (q : LeastConnections) (s : Backend),
        (q.Update s).count s = if 0 < q.count s then q.count s - 1 else q.count s) :=
  ⟨fun servers ops b => lcRun_inv servers ops b,
   fun q => lcSelect_count_self q,
   fun q s => lcUpdate_count_self q s⟩

/-! ### Update frame and no-op lemmas (C1, C9, C10) -/

/-- `(*LeastResponseTime).Update` never touches the pool or the tie-break
cursor, and touches only `server`'s entries of the three per-backend maps. -/
theorem lrtUpdate_frame (now : ℚ) (p : LeastResponseTime) (server : Backend) :
    (LeastResponseTime.Update now p server).servers = p.servers ∧
      (LeastResponseTime.Update now p server).current = p.current ∧
      ∀ b, b ≠ server →
        mfind? (LeastResponseTime.Update now p server).avgTime b = mfind? p.avgTime b ∧
          mfind? (LeastResponseTime.Update now p server).startTimes b =
            mfind? p.startTimes b ∧
          mfind? (LeastResponseTime.Update now p server).pastTimes b =
            mfind? p.pastTimes b := by
  rcases hfind : mfind? p.startTimes server with _ | q
  · simp [LeastResponseTime.Update, hfind]
  · rcases q with _ | ⟨start, rest⟩
    · simp [LeastResponseTime.Update, hfind]
    · refine ⟨by simp [LeastResponseTime.Update, hfind], by simp [LeastResponseTime.Update, hfind], ?_⟩
      intro b hb
      simp only [LeastResponseTime.Update, hfind]
      exact ⟨mfind?_mset_ne _ _ _ _ hb, mfind?_mset_ne _ _ _ _ hb,
        mfind?_mset_ne _ _ _ _ hb⟩

/-- `(*LeastResponseTime).Update` is a no-op when its argument has no
`startTimes` entry. -/
theorem lrtUpdate_noop (now : ℚ) (p : LeastResponseTime) (server : Backend)
    (hfind : mfind? p.startTimes server = none) :
    LeastResponseTime.Update now p server = p := by
  simp [LeastResponseTime.Update, hfind]

/-- An `isSome` lookup result means the key is among the stored keys. -/
theorem mfind?_isSome_mem {α : Type} (m : List (Backend × α)) (k : Backend)
    (h : (mfind? m k).isSome) : k ∈ m.map Prod.fst := by
  induction m with
  | nil => simp [mfind?] at h
  | cons hd t ih =>
    obtain ⟨k', v'⟩ := hd
    by_cases hk : k' = k
    · subst hk
      simp
    · simp only [mfind?, if_neg hk] at h
      simp [ih h]

/-- C1 fails as stated: for the RoundRobin policy over two backends,
`SelectServer()` advances the cursor and `Update` is a no-op, so the state
after the dial-failure compensation differs from the pre-selection state. -/
theorem c1_counterexample :
    ¬ ((NewRoundRobin ["a", "b"]).SelectServer.2.Update
        (NewRoundRobin ["a", "b"]).SelectServer.1 = NewRoundRobin ["a", "b"]) := by
  decide

/-- C1 (amended): the dial-failure compensation `Update(b)` right after
`SelectServer() = b` restores the pre-selection policy state exactly for the
variants whose selection only mutates load-accounting state: LeastConnections
(in every state where the selected backend has a map entry with nonnegative
count, as in every reachable state) and, trivially, N2One. It does not hold
for RoundRobin (the cursor stays advanced) or LeastResponseTime (the cursor,
history and averages keep their new values). -/
theorem c1_dial_failure_compensation (p : LeastConnections) (c : Int)
    (hfind : mfind? p.connections (p.SelectServer).1 = some c) (hc : 0 ≤ c) :
    ((p.SelectServer).2.Update (p.SelectServer).1 = p) ∧
      (∀ (q : N2One) (s : Backend), q.Update s = q) := by
  refine ⟨?_, fun q s => rfl⟩
  have hfind' :
      mfind? p.connections (lcScan p.connections p.servers (2 ^ 63 - 1, "")).2 =
        some c := hfind
  dsimp only [LeastConnections.SelectServer, LeastConnections.Update]
  rw [hfind']
  simp only [Option.getD_some]
  rw [mfind?_mset_self]
  simp only [if_pos (by omega : c + 1 > 0)]
  rw [show c + 1 - 1 = c by omega, mset_mset_self, mset_eq_of_mfind? _ _ _ hfind']

/-- Witness for C1's amended statement on a fresh two-backend
LeastConnections instance. -/
theorem c1_dial_failure_compensation_witness :
    mfind? (NewLeastConnections ["a", "b"]).connections
        ((NewLeastConnections ["a", "b"]).SelectServer).1 = some 0 ∧
      ((NewLeastConnections ["a", "b"]).SelectServer).2.Update
          ((NewLeastConnections ["a", "b"]).SelectServer).1 =
        NewLeastConnections ["a", "b"] :=
  ⟨by decide, (c1_dial_failure_compensation _ 0 (by decide) (by decide)).1⟩

/-- C9: for every policy variant, calling `Update(s)` with a string `s` that
is not a pool member leaves the whole policy state unchanged (for
LeastConnections and LeastResponseTime under the reachability invariant that
the per-backend maps hold keys only for pool members); being a no-op, repeated
calls have no further effect. -/
theorem c9_update_invalid_noop (s : Backend) :
    (∀ p : N2One, p.Update s = p) ∧
      (∀ p : RoundRobin, p.Update s = p) ∧
      (∀ p : LeastConnections, s ∉ p.servers →
        (∀ k, (mfind? p.connections k).isSome → k ∈ p.servers) → p.Update s = p) ∧
      (∀ (now : ℚ) (p : LeastResponseTime), s ∉ p.servers →
        (∀ k, (mfind? p.startTimes k).isSome → k ∈ p.servers) →
        LeastResponseTime.Update now p s = p) := by
  refine ⟨fun p => rfl, fun p => rfl, fun p hs hdom => ?_, fun now p hs hdom => ?_⟩
  · have hnone : mfind? p.connections s = none := by
      rcases hf : mfind? p.connections s with _ | c
      · rfl
      · exact absurd (hdom s (by rw [hf]; rfl)) hs
    simp [LeastConnections.Update, hnone]
  · have hnone : mfind? p.startTimes s = none := by
      rcases hf : mfind? p.startTimes s with _ | q
      · rfl
      · exact absurd (hdom s (by rw [hf]; rfl)) hs
    exact lrtUpdate_noop now p s hnone

/-- Witness for C9 on fresh single-backend instances and the non-member `"z"`. -/
theorem c9_update_invalid_noop_witness :
    ("z" : Backend) ∉ (NewLeastConnections ["a"]).servers ∧
      (NewLeastConnections ["a"]).Update "z" = NewLeastConnections ["a"] ∧
      LeastResponseTime.Update 0 (NewLeastResponseTime ["a"]) "z" =
        NewLeastResponseTime ["a"] := by
  have hdc : ∀ k, (mfind? [(("a" : Backend), (0 : Int))] k).isSome →
      k ∈ (["a"] : List Backend) := by
    intro k h
    have := mfind?_isSome_mem _ _ h
    simpa using this
  have hds : ∀ k, (mfind? [(("a" : Backend), ([] : List ℚ))] k).isSome →
      k ∈ (["a"] : List Backend) := by
    intro k h
    have := mfind?_isSome_mem _ _ h
    simpa using this
  refine ⟨by decide, ?_, ?_⟩
  · exact (c9_update_invalid_noop "z").2.2.1 (NewLeastConnections ["a"]) (by decide) hdc
  · exact (c9_update_invalid_noop "z").2.2.2 0 (NewLeastResponseTime ["a"]) (by decide) hds

/-- C10: for every policy variant, `Update(s)` changes at most the per-backend
state of `s`: the pool, RoundRobin's cursor and LeastResponseTime's tie-break
cursor are untouched, and every backend other than `s` keeps its map entries
(N2One and RoundRobin updates are the identity outright). -/
theorem c10_update_frame :
    (∀ (p : N2One) (s : Backend), p.Update s = p) ∧
      (∀ (p : RoundRobin) (s : Backend), p.Update s = p) ∧
      (∀ (p : LeastConnections) (s : Backend),
        (p.Update s).servers = p.servers ∧
          ∀ b, b ≠ s → mfind? (p.Update s).connections b = mfind? p.connections b) ∧
      (∀ (now : ℚ) (p : LeastResponseTime) (s : Backend),
        (LeastResponseTime.Update now p s).servers = p.servers ∧
          (LeastResponseTime.Update now p s).current = p.current ∧
          ∀ b, b ≠ s →
            mfind? (LeastResponseTime.Update now p s).avgTime b = mfind? p.avgTime b ∧
              mfind? (LeastResponseTime.Update now p s).startTimes b =
                mfind? p.startTimes b ∧
              mfind? (LeastResponseTime.Update now p s).pastTimes b =
                mfind? p.pastTimes b) := by
  refine ⟨fun p s => rfl, fun p s => rfl, fun p s => ⟨?_, fun b hb => ?_⟩,
    fun now p s => lrtUpdate_frame now p s⟩
  · rcases hf : mfind? p.connections s with _ | c
    · simp [LeastConnections.Update, hf]
    · by_cases hc : c > 0 <;> simp [LeastConnections.Update, hf, hc]
  · rcases hf : mfind? p.connections s with _ | c
    · simp [LeastConnections.Update, hf]
    · by_cases hc : c > 0
      · simp only [LeastConnections.Update, hf, hc, if_true]
        exact mfind?_mset_ne _ _ _ _ hb
      · simp [LeastConnections.Update, hf, hc]

/-- Witness for C10 at a concrete LeastConnections state and distinct
backends. -/
theorem c10_update_frame_witness :
    mfind? ((NewLeastConnections ["a", "b"]).Update "a").connections "b" =
      mfind? (NewLeastConnections ["a", "b"]).connections "b" :=
  (c10_update_frame.2.2.1 (NewLeastConnections ["a", "b"]) "a").2 "b" (by decide)

/-! ### Bounded response-time FIFO (C7) -/

/-- One policy-API call on a `LeastResponseTime` instance, with the wall-clock
time of the call. -/
inductive LRTOp where
  | select (now : ℚ)
  | update (s : Backend) (now : ℚ)

def lrtStep (p : LeastResponseTime) (op : LRTOp) : LeastResponseTime :=
  match op with
  | .select now => (LeastResponseTime.SelectServer now p).2
  | .update s now => LeastResponseTime.Update now p s

/-- A sequence of policy-API calls on a freshly constructed instance. -/
def lrtRun (servers : List Backend) (ops : List LRTOp) : LeastResponseTime :=
  ops.foldl lrtStep (NewLeastResponseTime servers)

/-- Every pending-timestamp FIFO holds at most 10000 entries. -/
def lrtQueueBound (p : LeastResponseTime) : Prop :=
  ∀ b, ((mfind? p.startTimes b).getD []).length ≤ 10000

/-- A push through the drop-oldest fallback never exceeds the capacity. -/
theorem lrtPush_length_le (t : ℚ) (q : List ℚ) (h : q.length ≤ 10000) :
    (lrtPush t q).length ≤ 10000 := by
  by_cases hq : q.length = 10000
  · simp [lrtPush, hq]
  · simp only [lrtPush, if_neg hq, List.length_append, List.length_cons,
      List.length_nil]
    omega

theorem mset_queueBound (st : List (Backend × List ℚ)) (k : Backend) (q : List ℚ)
    (h : ∀ b, ((mfind? st b).getD []).length ≤ 10000) (hq : q.length ≤ 10000) :
    ∀ b, ((mfind? (mset st k q) b).getD []).length ≤ 10000 := by
  intro b
  by_cases hb : b = k
  · subst hb
    rw [mfind?_mset_self]
    simpa using hq
  · rw [mfind?_mset_ne _ _ _ _ hb]
    exact h b

theorem lrtSelect_queueBound (now : ℚ) (p : LeastResponseTime)
    (h : lrtQueueBound p) : lrtQueueBound (LeastResponseTime.SelectServer now p).2 := by
  intro b
  dsimp only [LeastResponseTime.SelectServer]
  exact mset_queueBound _ _ _ h (lrtPush_length_le _ _ (h _)) b

theorem lrtUpdate_queueBound (now : ℚ) (p : LeastResponseTime) (server : Backend)
    (h : lrtQueueBound p) : lrtQueueBound (LeastResponseTime.Update now p server) := by
  rcases hfind : mfind? p.startTimes server with _ | q
  · rwa [lrtUpdate_noop now p server hfind]
  · rcases q with _ | ⟨start, rest⟩
    · intro b
      simpa [LeastResponseTime.Update, hfind] using h b
    · intro b
      simp only [LeastResponseTime.Update, hfind]
      refine mset_queueBound _ _ _ h ?_ b
      have := h server
      rw [hfind] at this
      simp only [Option.getD_some, List.length_cons] at this
      omega

theorem lrtRun_queueBound (servers : List Backend) (ops : List LRTOp) :
    lrtQueueBound (lrtRun servers ops) := by
  have hstep : ∀ (st : LeastResponseTime) (op : LRTOp),
      lrtQueueBound st → lrtQueueBound (lrtStep st op) := by
    intro st op h
    cases op with
    | select now => exact lrtSelect_queueBound now st h
    | update s now => exact lrtUpdate_queueBound now st s h
  have hinit : lrtQueueBound (NewLeastResponseTime servers) := by
    intro b
    dsimp only [NewLeastResponseTime]
    have key : ∀ (l : List Backend) (m : List (Backend × List ℚ)),
        (∀ x, ((mfind? m x).getD []).length ≤ 10000) →
        ((mfind? (l.foldl (fun m s => mset m s []) m) b).getD []).length ≤ 10000 := by
      intro l
      induction l with
      | nil => intro m hm; exact hm b
      | cons s rest ih =>
        intro m hm
        refine ih _ (fun x => ?_)
        by_cases hx : x = s
        · subst hx
          rw [mfind?_mset_self]
          simp
        · rw [mfind?_mset_ne _ _ _ _ hx]
          exact hm x
    exact key servers [] (fun _ => by simp [mfind?])
  rw [lrtRun]
  induction ops generalizing servers with
  | nil => exact hinit
  | cons op rest ih =>
    have hfold : ∀ (l : List LRTOp) (st : LeastResponseTime),
        lrtQueueBound st → lrtQueueBound (l.foldl lrtStep st) := by
      intro l
      induction l with
      | nil => exact fun st h => h
      | cons o t iht => exact fun st h => iht _ (hstep st o h)
    exact hfold _ _ hinit

/-- C7: over every operation sequence of a LeastResponseTime policy, each
per-backend FIFO of pending start timestamps holds at most 10000 entries, and
a push into a FIFO at capacity first removes that FIFO's oldest entry so that
the (total, never-blocking) push succeeds. -/
theorem c7_fifo_bound :
    (∀ (servers : List Backend) (ops : List LRTOp) (b : Backend),
        ((mfind? (lrtRun servers ops).startTimes b).getD []).length ≤ 10000) ∧
      (∀ (q : List ℚ) (t : ℚ), q.length = 10000 → lrtPush t q = q.drop 1 ++ [t]) :=
  ⟨fun servers ops b => lrtRun_queueBound servers ops b,
   fun q t h => by simp [lrtPush, h]⟩

/-- Witness for C7's at-capacity push on a concrete full queue. -/
theorem c7_fifo_bound_witness :
    (List.replicate 10000 (0 : ℚ)).length = 10000 ∧
      lrtPush 1 (List.replicate 10000 (0 : ℚ)) =
        (List.replicate 10000 (0 : ℚ)).drop 1 ++ [1] :=
  ⟨by rw [List.length_replicate], c7_fifo_bound.2 _ _ (by rw [List.length_replicate])⟩

/-! ### Startup configuration (C8) -/

/-- C8 fails as stated: a whitespace-only `-s` flag specifies an empty backend
list, yet passes the startup check (`len(serversFlag) == 0` is tested on the
raw string, before splitting into fields), so the process proceeds to the
accept loop with an empty pool. -/
theorem c8_counterexample :
    mainStartup "RoundRobin" " " = .ok (.RoundRobin, []) := by
  with_unfolding_all rfl

/-- C8 (amended): when the `-s` flag string itself is empty (the flag is
missing or explicitly `""`), startup fails fatally before the listener is
bound, whatever the policy name; a whitespace-only `-s` however yields an
empty parsed pool yet still reaches the accept loop. -/
theorem c8_empty_flag_fatal (policyName : String) :
    mainStartup policyName "" = .error .noBackends := by
  simp [mainStartup]

/-! ### The two-phase LeastResponseTime selection (C2) -/

theorem emod_add_left_cancel (a t n : Int) : ((a % n) + t) % n = (a + t) % n := by
  conv_lhs => rw [Int.add_emod, Int.emod_emod_of_dvd _ dvd_rfl, ← Int.add_emod]

theorem emod_add_right_cancel (t a n : Int) : (t + (a % n)) % n = (t + a) % n := by
  rw [add_comm t, emod_add_left_cancel, add_comm]

/-- The phase-a scan result is a lower bound of its seed and of every scanned
average. -/
theorem lrtScan_fst_le (avg : Backend → ℚ) (l : List Backend) :
    ∀ (m : ℚ) (sel : Backend),
      (lrtScan avg l (m, sel)).1 ≤ m ∧ ∀ x ∈ l, (lrtScan avg l (m, sel)).1 ≤ avg x := by
  induction l with
  | nil => exact fun m sel => ⟨le_refl m, by simp⟩
  | cons s rest ih =>
    intro m sel
    by_cases h : avg s < m
    · simp only [lrtScan, if_pos h]
      obtain ⟨h1, h2⟩ := ih (avg s) s
      refine ⟨le_trans h1 (le_of_lt h), fun x hx => ?_⟩
      rcases List.mem_cons.mp hx with rfl | hx'
      · exact h1
      · exact h2 x hx'
    · simp only [lrtScan, if_neg h]
      obtain ⟨h1, h2⟩ := ih m sel
      refine ⟨h1, fun x hx => ?_⟩
      rcases List.mem_cons.mp hx with rfl | hx'
      · exact le_trans h1 (not_lt.mp h)
      · exact h2 x hx'

/-- The scan keeps `min = avg[selected]` in lock step (the loop invariant that
makes phase b's comparison against `avg[selected]` a comparison against the
minimal value). -/
theorem lrtScan_avg_snd (avg : Backend → ℚ) (l : List Backend) :
    ∀ (m : ℚ) (sel : Backend), avg sel = m →
      avg (lrtScan avg l (m, sel)).2 = (lrtScan avg l (m, sel)).1 := by
  induction l with
  | nil => exact fun m sel h => h
  | cons s rest ih =>
    intro m sel h
    by_cases hlt : avg s < m
    · simp only [lrtScan, if_pos hlt]
      exact ih (avg s) s rfl
    · simp only [lrtScan, if_neg hlt]
      exact ih m sel h

/-- The scan's selected backend is the seed or a scanned pool member. -/
theorem lrtScan_snd_mem (avg : Backend → ℚ) (l : List Backend) :
    ∀ (m : ℚ) (sel : Backend),
      (lrtScan avg l (m, sel)).2 = sel ∨ (lrtScan avg l (m, sel)).2 ∈ l := by
  induction l with
  | nil => exact fun m sel => Or.inl rfl
  | cons s rest ih =>
    intro m sel
    by_cases hlt : avg s < m
    · simp only [lrtScan, if_pos hlt]
      rcases ih (avg s) s with h | h
      · right
        rw [h]
        exact List.mem_cons_self s rest
      · right
        exact List.mem_cons_of_mem s h
    · simp only [lrtScan, if_neg hlt]
      rcases ih m sel with h | h
      · exact Or.inl h
      · right
        exact List.mem_cons_of_mem s h

/-- Phase b's loop, run with the pool size as fuel from a cursor `≥ -1`,
stops at the first rotated position (`k` advances, `1 ≤ k ≤ fuel`) that
satisfies the predicate, provided some position within `fuel` advances does. -/
theorem lrtFindCursor_first (good : Int → Bool) (N : Nat) (hN : 0 < N) :
    ∀ (fuel : Nat) (cur : Int), -1 ≤ cur →
      (∃ j : Nat, j < fuel ∧ good ((cur + 1 + (j : Int)) % (N : Int)) = true) →
      ∃ k : Nat, 1 ≤ k ∧ k ≤ fuel ∧
        lrtFindCursor good (N : Int) fuel cur = (cur + (k : Int)) % (N : Int) ∧
        good ((cur + (k : Int)) % (N : Int)) = true ∧
        ∀ i : Nat, 1 ≤ i → i < k → good ((cur + (i : Int)) % (N : Int)) = false := by
  intro fuel
  induction fuel with
  | zero =>
    intro cur hcur hex
    obtain ⟨j, hj, -⟩ := hex
    omega
  | succ f ih =>
    intro cur hcur hex
    have hc2 : (cur + 1).tmod (N : Int) = (cur + 1) % (N : Int) :=
      Int.tmod_eq_emod (by omega) (by omega)
    by_cases hg : good ((cur + 1) % (N : Int)) = true
    · refine ⟨1, le_refl 1, by omega, ?_, ?_, fun i hi1 hik => by omega⟩
      · simp only [lrtFindCursor, hc2, if_pos hg]
        norm_num
      · simpa using hg
    · obtain ⟨j, hj, hgj⟩ := hex
      have hj0 : j ≠ 0 := by
        intro h0
        subst h0
        refine hg ?_
        simpa using hgj
      obtain ⟨j', rfl⟩ : ∃ j'', j = j'' + 1 := ⟨j - 1, by omega⟩
      have hcur' : -1 ≤ (cur + 1) % (N : Int) := by
        have := Int.emod_nonneg (cur + 1) (by omega : (N : Int) ≠ 0)
        omega
      have hex' : ∃ j : Nat, j < f ∧
          good ((((cur + 1) % (N : Int)) + 1 + (j : Int)) % (N : Int)) = true := by
        refine ⟨j', by omega, ?_⟩
        rw [add_assoc, emod_add_left_cancel]
        have harg : (cur + 1 + (1 + (j' : Int))) = (cur + 1 + ((j' + 1 : Nat) : Int)) := by
          push_cast
          ring
        rw [harg]
        exact hgj
      obtain ⟨k', hk'1, hk'f, heq, hgood, hmin⟩ := ih ((cur + 1) % (N : Int)) hcur' hex'
      have hshift : ∀ t : Int, (((cur + 1) % (N : Int)) + t) % (N : Int) =
          (cur + 1 + t) % (N : Int) := fun t => emod_add_left_cancel _ _ _
      refine ⟨k' + 1, by omega, by omega, ?_, ?_, ?_⟩
      · simp only [lrtFindCursor, hc2, if_neg hg]
        rw [heq, hshift]
        congr 1
        push_cast
        ring
      · rw [hshift] at hgood
        have harg : (cur + ((k' + 1 : Nat) : Int)) = (cur + 1 + (k' : Int)) := by
          push_cast
          ring
        rw [harg]
        exact hgood
      · intro i hi1 hik
        rcases i with _ | i'
        · omega
        · rcases Nat.eq_or_lt_of_le (by omega : 1 ≤ i' + 1) with hi1' | hi2'
          · -- i = 1: the first advance was not good
            have h1 : (cur + ((i' + 1 : Nat) : Int)) = cur + 1 := by
              have : i' = 0 := by omega
              subst this
              push_cast
              ring
            rw [h1]
            exact Bool.not_eq_true _ |>.mp hg
          · -- i ≥ 2: covered by the recursive minimality
            have h2 := hmin i' (by omega) (by omega)
            rw [hshift] at h2
            have harg : (cur + ((i' + 1 : Nat) : Int)) = (cur + 1 + (i' : Int)) := by
              push_cast
              ring
            rw [harg]
            exact h2

/-- C2: for every non-empty pool and every LeastResponseTime state with
`current ≥ -1` (as established by the constructor and preserved by every
operation), `SelectServer()` returns a pool backend whose running mean is the
pool minimum (phase a identifies the minimal value by a fixed-order,
first-occurrence-wins scan), and it is found by advancing the rotating cursor
`k ≥ 1` positions from its previous value, wrapping modulo the pool size,
with every strictly earlier advance landing on a backend whose running mean
differs from the minimum — so repeated ties are spread round-robin style
rather than always resolving to the first minimal backend. -/
theorem c2_leastResponseTime_two_phase (now : ℚ) (p : LeastResponseTime)
    (hne : p.servers ≠ []) (hcur : -1 ≤ p.current) :
    (LeastResponseTime.SelectServer now p).1 ∈ p.servers ∧
      (∀ s ∈ p.servers,
        p.avgOf (LeastResponseTime.SelectServer now p).1 ≤ p.avgOf s) ∧
      ∃ k : Nat, 1 ≤ k ∧ k ≤ p.servers.length ∧
        (LeastResponseTime.SelectServer now p).2.current =
          (p.current + (k : Int)) % (p.servers.length : Int) ∧
        (LeastResponseTime.SelectServer now p).1 =
          p.servers.getD ((p.current + (k : Int)) % (p.servers.length : Int)).toNat "" ∧
        ∀ i : Nat, 1 ≤ i → i < k →
          p.avgOf (p.servers.getD
              ((p.current + (i : Int)) % (p.servers.length : Int)).toNat "") ≠
            p.avgOf (LeastResponseTime.SelectServer now p).1 := by
  have hN : 0 < p.servers.length := List.length_pos.mpr hne
  have hNne : ((p.servers.length : Int)) ≠ 0 := by
    exact_mod_cast Nat.pos_iff_ne_zero.mp hN
  have hNpos : (0 : Int) < (p.servers.length : Int) := by exact_mod_cast hN
  have hsel0 : p.servers.headD "" ∈ p.servers := by
    rcases hh : p.servers with _ | ⟨a, t⟩
    · exact absurd hh hne
    · simp
  set sc := lrtScan p.avgOf p.servers
    (p.avgOf (p.servers.headD ""), p.servers.headD "") with hscdef
  set good : Int → Bool :=
    fun c => decide (p.avgOf (p.servers.getD c.toNat "") = p.avgOf sc.2) with hgooddef
  set cur2 := lrtFindCursor good (p.servers.length : Int) p.servers.length p.current
    with hcur2def
  have h1 : (LeastResponseTime.SelectServer now p).1 = p.servers.getD cur2.toNat "" := rfl
  have h2 : (LeastResponseTime.SelectServer now p).2.current = cur2 := rfl
  -- facts about the phase-a scan
  have hsndmem := lrtScan_snd_mem p.avgOf p.servers
    (p.avgOf (p.servers.headD "")) (p.servers.headD "")
  rw [← hscdef] at hsndmem
  have hselmem : sc.2 ∈ p.servers := by
    rcases hsndmem with h | h
    · rw [h]
      exact hsel0
    · exact h
  have hfstle := lrtScan_fst_le p.avgOf p.servers
    (p.avgOf (p.servers.headD "")) (p.servers.headD "")
  have havgsnd := lrtScan_avg_snd p.avgOf p.servers
    (p.avgOf (p.servers.headD "")) (p.servers.headD "") rfl
  rw [← hscdef] at hfstle havgsnd
  have htmin : ∀ x ∈ p.servers, p.avgOf sc.2 ≤ p.avgOf x := by
    intro x hx
    rw [havgsnd]
    exact hfstle.2 x hx
  -- phase b: some rotated position carries the minimal value
  obtain ⟨i0, hi0lt, hi0⟩ :
      ∃ i0 : Nat, i0 < p.servers.length ∧ p.servers.getD i0 "" = sc.2 := by
    obtain ⟨i, hi, hieq⟩ := List.mem_iff_getElem.mp hselmem
    exact ⟨i, hi, by rw [List.getD_eq_getElem _ _ hi]; exact hieq⟩
  set jI := ((i0 : Int) - (p.current + 1)) % (p.servers.length : Int) with hjIdef
  have hj0 : (0 : Int) ≤ jI := Int.emod_nonneg _ hNne
  have hjlt : jI < (p.servers.length : Int) := Int.emod_lt_of_pos _ hNpos
  have hpos : (p.current + 1 + (jI.toNat : Int)) % (p.servers.length : Int) = (i0 : Int) := by
    rw [Int.toNat_of_nonneg hj0, hjIdef, emod_add_right_cancel,
      show p.current + 1 + ((i0 : Int) - (p.current + 1)) = (i0 : Int) by ring]
    exact Int.emod_eq_of_lt (by exact_mod_cast Nat.zero_le i0) (by exact_mod_cast hi0lt)
  have hgoodj : good ((p.current + 1 + (jI.toNat : Int)) % (p.servers.length : Int)) = true := by
    have hx : p.avgOf (p.servers.getD (((i0 : Nat) : Int)).toNat "") = p.avgOf sc.2 := by
      rw [Int.toNat_natCast, hi0]
    rw [hpos]
    exact decide_eq_true hx
  obtain ⟨k, hk1, hkN, heq, hgoodk, hmin⟩ :=
    lrtFindCursor_first good p.servers.length hN p.servers.length p.current hcur
      ⟨jI.toNat, by omega, hgoodj⟩
  -- the returned backend and updated cursor
  have hb : (LeastResponseTime.SelectServer now p).1 =
      p.servers.getD ((p.current + (k : Int)) % (p.servers.length : Int)).toNat "" := by
    rw [h1, hcur2def, heq]
  have hcurrent : (LeastResponseTime.SelectServer now p).2.current =
      (p.current + (k : Int)) % (p.servers.length : Int) := by
    rw [h2, hcur2def, heq]
  have havgb :
      p.avgOf (p.servers.getD ((p.current + (k : Int)) % (p.servers.length : Int)).toNat "") =
        p.avgOf sc.2 := by
    simp only [hgooddef] at hgoodk
    exact of_decide_eq_true hgoodk
  have hbmem :
      p.servers.getD ((p.current + (k : Int)) % (p.servers.length : Int)).toNat "" ∈
        p.servers := by
    have h0 : (0 : Int) ≤ (p.current + (k : Int)) % (p.servers.length : Int) :=
      Int.emod_nonneg _ hNne
    have hlt : (p.current + (k : Int)) % (p.servers.length : Int) <
        (p.servers.length : Int) := Int.emod_lt_of_pos _ hNpos
    have htoNat : ((p.current + (k : Int)) % (p.servers.length : Int)).toNat <
        p.servers.length := by omega
    rw [List.getD_eq_getElem _ _ htoNat]
    exact List.getElem_mem htoNat
  refine ⟨?_, ?_, k, hk1, hkN, hcurrent, hb, ?_⟩
  · rw [hb]
    exact hbmem
  · intro s hs
    rw [hb, havgb]
    exact htmin s hs
  · intro i hi1 hik
    have hfalse := hmin i hi1 hik
    simp only [hgooddef] at hfalse
    rw [hb, havgb]
    exact of_decide_eq_false hfalse

/-- Witness for C2 on a fresh two-backend instance at time 0. -/
theorem c2_leastResponseTime_two_phase_witness :
    ((NewLeastResponseTime ["a", "b"]).servers ≠ [] ∧
        -1 ≤ (NewLeastResponseTime ["a", "b"]).current) ∧
      (LeastResponseTime.SelectServer 0 (NewLeastResponseTime ["a", "b"])).1 ∈
        (NewLeastResponseTime ["a", "b"]).servers :=
  ⟨⟨by decide, by decide⟩,
   (c2_leastResponseTime_two_phase 0 (NewLeastResponseTime ["a", "b"])
     (by decide) (by decide)).1⟩
